import Mathlib

set_option maxRecDepth 100000

/-!
Verification of the QoS traffic classifier and queueing policer of a border
router (package `queues`).  The Go source is shallowly embedded: pure Go
functions become Lean functions, Go maps become functions with pointwise
update, Go rule pointers `&crs[k]` become the index `k` into the rule slice
(pointer identity = index equality), a nil rule pointer becomes `none`, and
the out-of-range slice write in `intersectListsRules` (a runtime panic in Go)
becomes an `Option` failure.  Machine integers are modelled as `Nat`/`Int`
with explicit `% 2 ^ w` where a Go conversion truncates.
-/

/-- Modelled from the spec: `NetworkId` is a pair of an ISD (16-bit) and an
AS (64-bit) identifier (`addr.IA` lives outside the sources at hand). -/
structure IA where
  I : Nat
  A : Nat
deriving DecidableEq

/-- Alias for the identifier type, usable where a field named `IA` shadows it. -/
abbrev AddrIA := IA

/-- The all-zero identifier, the zero value of Go's `addr.IA`. -/
def zeroIA : IA := ⟨0, 0⟩

/-- Modelled from the spec: an extension header discriminator, a pair of a
class and a type byte (`common.ExtnType`; the spec's `(class:u8, type:u8)`).
The Go field `Type` is a Lean keyword and is rendered `Typ`. -/
structure ExtnType where
  Class : Nat
  Typ : Nat
deriving DecidableEq

/-- The zero value of `common.ExtnType`, produced by `make([]common.ExtnType, 255)`. -/
def zeroExtn : ExtnType := ⟨0, 0⟩

/-- `ProtocolMatchType`: combination of l4 protocol and extension type.
`extension` is an `int`; `-1` means any extension. -/
structure ProtocolMatchType where
  baseProtocol : Nat
  extension : Int
deriving DecidableEq

/-- The `matchMode` enumeration (`EXACT`..`INTF`, integer codes 0..5). -/
inductive matchMode where
  | EXACT
  | ISDONLY
  | ASONLY
  | RANGE
  | ANY
  | INTF
deriving DecidableEq

/-- Alias for the match-mode type, usable where a field named `matchMode` shadows it. -/
abbrev MatchModeT := matchMode

/-- `matchRule`: one side (source or destination) of an internal rule. -/
structure matchRule where
  IA : AddrIA
  lowLim : AddrIA
  upLim : AddrIA
  intf : Nat
  matchMode : MatchModeT
deriving DecidableEq

/-- The zero value of `matchRule` (Go zero `matchMode` is `EXACT`, code 0). -/
def zeroMatchRule : matchRule := ⟨zeroIA, zeroIA, zeroIA, 0, matchMode.EXACT⟩

/-- `InternalClassRule`: the QoS subsystem's internal representation of a rule. -/
structure InternalClassRule where
  Name : String
  Priority : Int
  SourceAs : matchRule
  DestinationAs : matchRule
  L4Type : List ProtocolMatchType
  QueueNumber : Nat
deriving DecidableEq

/-- `emptyRule`: the distinguished default rule returned when nothing matches. -/
def emptyRule : InternalClassRule :=
  ⟨"default", 0, zeroMatchRule, zeroMatchRule, [], 0⟩

/-- A rule reference: Go stores `&crs[k]`, so a reference is the index `k`
into the rule slice and pointer identity is index equality. -/
abbrev RuleRef := Nat

/-- Dereference a rule reference against the rule slice.  All references
built by `RulesToMap` are in range, so the default is never consulted by
reachable code. -/
def deref (crs : List InternalClassRule) (r : RuleRef) : InternalClassRule :=
  (crs.get? r).getD emptyRule

/-- Dereference a possibly-default rule pointer: `none` is the `emptyRule`
pointer held in `returnRule` before any candidate wins. -/
def derefOpt (crs : List InternalClassRule) (r : Option RuleRef) : InternalClassRule :=
  match r with
  | none => emptyRule
  | some r => deref crs r

/-- `matchRuleL4ExtensionType`: does the rule accept the extension list?  For
each `ProtocolMatchType` entry, extension `-1` accepts immediately; otherwise
some listed extension must have the entry's base protocol as its class and
the `uint8` truncation of the entry's extension as its type. -/
def matchRuleL4ExtensionType (rule : InternalClassRule) (extensions : List ExtnType) : Bool :=
  rule.L4Type.any fun pm =>
    pm.extension == -1 ||
      extensions.any fun e =>
        (pm.extension % 256).toNat == e.Typ && pm.baseProtocol == e.Class

/-- The per-rule decision taken inside the loop of `matchL4Type`: some entry's
base protocol equals the packet's l4 type, and then the whole rule passes
`matchRuleL4ExtensionType` (note: the extension check is over all entries of
the rule, not only the entry whose base protocol matched). -/
def matchL4TypeOne (rule : InternalClassRule) (l4t : Nat) (extensions : List ExtnType) : Bool :=
  rule.L4Type.any fun pm =>
    pm.baseProtocol == l4t && matchRuleL4ExtensionType rule extensions

/-- The scan loop of `matchL4Type` over the candidate list, carrying `n`, the
number of scratch-mask slots not yet passed (`noRules - i`).  The reset loop
leaves every slot false, so at the end of the list — or at the first nil
entry, where the Go loop breaks — the remaining `n` slots stay false.  A
successful match writes `mask[i] = true`: with no slot left (`n = 0`) that
write is out of range in Go (a runtime panic), modelled as `none`; a failed
match writes nothing, so the scan walks on even past the mask's end. -/
def matchL4TypeGo (crs : List InternalClassRule) (l4t : Nat)
    (extensions : List ExtnType) : Nat → List (Option RuleRef) → Option (List Bool)
  | n, [] => some (List.replicate n false)
  | n, none :: _ => some (List.replicate n false)
  | n, some r :: rest =>
      if matchL4TypeOne (deref crs r) l4t extensions then
        match n with
        | 0 => none
        | Nat.succ n' => (matchL4TypeGo crs l4t extensions n' rest).map fun m => true :: m
      else
        match n with
        | 0 => matchL4TypeGo crs l4t extensions 0 rest
        | Nat.succ n' => (matchL4TypeGo crs l4t extensions n' rest).map fun m => false :: m

/-- `matchL4Type`: reset the scratch mask (length `noRules`, allocated by
`Init`) and set it over the candidate list.  `none` models the out-of-range
mask write the Go code performs when a match lands past the mask's end. -/
def matchL4Type (crs : List InternalClassRule) (noRules : Nat)
    (list : List (Option RuleRef)) (l4t : Nat) (extensions : List ExtnType) :
    Option (List Bool) :=
  matchL4TypeGo crs l4t extensions noRules list

/-- The sequence of rule references appended by the quadruple loop of
`intersectListsRules`: for each source bucket, each destination bucket, each
entry of the source bucket and each entry of the destination bucket, emit the
source entry when the two references are identical. -/
def intersectPairs (a b : List (List RuleRef)) : List RuleRef :=
  a.flatMap fun la =>
    b.flatMap fun lb =>
      la.flatMap fun x => (lb.filter fun y => y == x).map fun _ => x

/-- `intersectListsRules`: the Go function writes the matches into a slice of
exactly 10 preallocated nil slots; the 11th write is out of range and panics,
modelled as `none`.  `a` and `b` are the fixed 3-bucket arrays. -/
def intersectListsRules (a b : List (List RuleRef)) : Option (List (Option RuleRef)) :=
  let pairs := intersectPairs a b
  if pairs.length ≤ 10 then
    some (pairs.map some ++ List.replicate (10 - pairs.length) none)
  else
    none

/-- `getRuleWithPrevMax`: loop `i` over the LIST's length, reading `mask[i]`
each round; while the mask is true, a rule with priority strictly above the
running maximum becomes the new return rule; at the first false the loop
breaks.  The nil list returns immediately.  Two Go runtime panics are
modelled as `none`: reading `mask[i]` with the mask already exhausted (the
scratch mask is shorter than the list, as happens with the 10-slot `matched`
buffer when `noRules < 10`), and dereferencing a nil entry under a true mask. -/
def getRuleWithPrevMax (crs : List InternalClassRule) (returnRule : Option RuleRef)
    (mask : List Bool) (list : List (Option RuleRef)) (prevMax : Int) :
    Option (Int × Option RuleRef) :=
  match mask, list with
  | _, [] => some (prevMax, returnRule)
  | [], _ :: _ => none
  | false :: _, _ :: _ => some (prevMax, returnRule)
  | true :: ms, some r :: rs =>
      if prevMax < (deref crs r).Priority then
        getRuleWithPrevMax crs (some r) ms rs (deref crs r).Priority
      else
        getRuleWithPrevMax crs returnRule ms rs prevMax
  | true :: _, none :: _ => none

/-- The prefix of a candidate list actually scanned by `getRuleWithPrevMax`:
entries up to, excluding, the first mask-false or nil position. -/
def scanned (mask : List Bool) (list : List (Option RuleRef)) : List RuleRef :=
  match mask, list with
  | true :: ms, some r :: rs => r :: scanned ms rs
  | _, _ => []

/-- `MapRules`: the pre-built index of rules by match axis.  Go maps with nil
default are functions defaulting to the empty list. -/
structure MapRules where
  RulesList : List InternalClassRule
  SourceRules : IA → List RuleRef
  DestinationRules : IA → List RuleRef
  SourceAnyDestinationRules : IA → List RuleRef
  DestinationAnySourceRules : IA → List RuleRef
  ASOnlySourceRules : Nat → List RuleRef
  ASOnlyDestRules : Nat → List RuleRef
  ISDOnlySourceRules : Nat → List RuleRef
  ISDOnlyDestRules : Nat → List RuleRef
  L4OnlyRules : List RuleRef
  InterfaceIncomingRules : Nat → List RuleRef

/-- Append a reference under a key of an indexed table (`m[k] = append(m[k], r)`). -/
def mapAdd {κ : Type} [DecidableEq κ] (m : κ → List RuleRef) (key : κ) (r : RuleRef) :
    κ → List RuleRef :=
  fun x => if x = key then m key ++ [r] else m x

/-- The inclusive rectangle of identifiers enumerated for a `RANGE` predicate
(`for i := lowLimI; i <= upLimI; i++ { for j := lowLimA; j <= upLimA; j++ }`). -/
def rangeCells (lowLim upLim : IA) : List IA :=
  (List.range' lowLim.I (upLim.I + 1 - lowLim.I)).flatMap fun i =>
    (List.range' lowLim.A (upLim.A + 1 - lowLim.A)).map fun j => IA.mk i j

/-- Append a reference under every cell of a `RANGE` rectangle. -/
def rangeAddAll (m : IA → List RuleRef) (lowLim upLim : IA) (k : RuleRef) :
    IA → List RuleRef :=
  (rangeCells lowLim upLim).foldl (fun m2 ia => mapAdd m2 ia k) m

/-- One iteration of the `RulesToMap` loop for rule `cr` stored at index `k`:
the source-mode switch followed by the destination-mode switch. -/
def rulesToMapStep (mp : MapRules) (k : RuleRef) (cr : InternalClassRule) : MapRules :=
  let mp1 :=
    match cr.SourceAs.matchMode with
    | matchMode.EXACT =>
        { mp with SourceRules := mapAdd mp.SourceRules cr.SourceAs.IA k }
    | matchMode.RANGE =>
        { mp with SourceRules := rangeAddAll mp.SourceRules cr.SourceAs.lowLim cr.SourceAs.upLim k }
    | matchMode.ASONLY =>
        { mp with ASOnlySourceRules := mapAdd mp.ASOnlySourceRules cr.SourceAs.IA.A k }
    | matchMode.ISDONLY =>
        { mp with ISDOnlySourceRules := mapAdd mp.ISDOnlySourceRules cr.SourceAs.IA.I k }
    | matchMode.ANY =>
        if cr.DestinationAs.matchMode ≠ matchMode.ANY then
          { mp with DestinationAnySourceRules := mapAdd mp.DestinationAnySourceRules cr.DestinationAs.IA k }
        else
          { mp with L4OnlyRules := mp.L4OnlyRules ++ [k] }
    | matchMode.INTF =>
        { mp with InterfaceIncomingRules := mapAdd mp.InterfaceIncomingRules cr.SourceAs.intf k }
  match cr.DestinationAs.matchMode with
  | matchMode.EXACT =>
      { mp1 with DestinationRules := mapAdd mp1.DestinationRules cr.DestinationAs.IA k }
  | matchMode.RANGE =>
      { mp1 with DestinationRules := rangeAddAll mp1.DestinationRules cr.DestinationAs.lowLim cr.DestinationAs.upLim k }
  | matchMode.ASONLY =>
      { mp1 with ASOnlyDestRules := mapAdd mp1.ASOnlyDestRules cr.DestinationAs.IA.A k }
  | matchMode.ISDONLY =>
      { mp1 with ISDOnlyDestRules := mapAdd mp1.ISDOnlyDestRules cr.DestinationAs.IA.I k }
  | matchMode.ANY =>
      if cr.SourceAs.matchMode ≠ matchMode.ANY then
        { mp1 with SourceAnyDestinationRules := mapAdd mp1.SourceAnyDestinationRules cr.SourceAs.IA k }
      else
        mp1
  | matchMode.INTF =>
      mp1

/-- An indexed table with no entries: every key maps to the empty list (the
lookup default of a fresh Go map). -/
def emptyTable {κ : Type} : κ → List RuleRef := fun _ => []

/-- The empty index over a given rule slice. -/
def emptyMapRules (crs : List InternalClassRule) : MapRules where
  RulesList := crs
  SourceRules := emptyTable
  DestinationRules := emptyTable
  SourceAnyDestinationRules := emptyTable
  DestinationAnySourceRules := emptyTable
  ASOnlySourceRules := emptyTable
  ASOnlyDestRules := emptyTable
  ISDOnlySourceRules := emptyTable
  ISDOnlyDestRules := emptyTable
  L4OnlyRules := []
  InterfaceIncomingRules := emptyTable

/-- `RulesToMap`: build the index by folding the per-rule step over the
enumerated rule slice. -/
def RulesToMap (crs : List InternalClassRule) : MapRules :=
  crs.enum.foldl (fun mp p => rulesToMapStep mp p.1 p.2) (emptyMapRules crs)

/-- The packet accessor: source and destination identifiers, ingress
interface, l4 protocol, and the extension types of the hop-by-hop and
end-to-end headers (in Go read off `rp` via `SrcIA`, `DstIA`, `Ingress.IfID`,
`L4Type`, `HBHExt`, `E2EExt`, with accessor errors discarded). -/
structure RtrPkt where
  srcIA : IA
  dstIA : IA
  ifID : Nat
  l4Type : Nat
  hbhExt : List ExtnType
  e2eExt : List ExtnType

/-- `cacheEntry`: the classification cache key. -/
structure cacheEntry where
  srcAddress : IA
  dstAddress : IA
  l4type : Nat
  intf : Nat
deriving DecidableEq

/-- The cache key formed for a packet. -/
def entryOf (pkt : RtrPkt) : cacheEntry :=
  ⟨pkt.srcIA, pkt.dstIA, pkt.l4Type, pkt.ifID⟩

/-- The classification cache: `Get` yields `none` on a miss, otherwise the
stored rule pointer (which may itself be the `emptyRule` pointer, `none`). -/
def Cache : Type := cacheEntry → Option (Option RuleRef)

/-- The empty cache. -/
def cacheEmpty : Cache := fun _ => none

/-- `Put`: store a rule pointer under a key, replacing any prior mapping. -/
def cachePut (c : Cache) (e : cacheEntry) (r : Option RuleRef) : Cache :=
  fun x => if x = e then some r else c x

/-- The three source candidate buckets gathered by `GetRuleForPacket`. -/
def sourcesOf (config : MapRules) (pkt : RtrPkt) : List (List RuleRef) :=
  [config.SourceRules pkt.srcIA,
   config.ASOnlySourceRules pkt.srcIA.A,
   config.ISDOnlySourceRules pkt.srcIA.I]

/-- The three destination candidate buckets gathered by `GetRuleForPacket`. -/
def destinationsOf (config : MapRules) (pkt : RtrPkt) : List (List RuleRef) :=
  [config.DestinationRules pkt.dstIA,
   config.ASOnlyDestRules pkt.dstIA.A,
   config.ISDOnlyDestRules pkt.dstIA.I]

/-- The `sourceAnyDestinationMatches` candidate group: the code reads
`SourceAnyDestinationRules[srcAddr]`. -/
def sadOf (config : MapRules) (pkt : RtrPkt) : List RuleRef :=
  config.SourceAnyDestinationRules pkt.srcIA

/-- The `destinationAnySourceRules` candidate group: the code reads
`DestinationAnySourceRules[dstAddr]`. -/
def dasOf (config : MapRules) (pkt : RtrPkt) : List RuleRef :=
  config.DestinationAnySourceRules pkt.dstIA

/-- The `interfaceIncomingRules` candidate group. -/
def intfOf (config : MapRules) (pkt : RtrPkt) : List RuleRef :=
  config.InterfaceIncomingRules pkt.ifID

/-- The cache-independent body of `GetRuleForPacket`: gather the candidate
groups, intersect the source and destination buckets by identity, compute the
five masks (in the code's order: matched, source-any, destination-any,
l4-only, interface), then run the five maximum-priority scans (matched,
source-any, destination-any, interface, l4-only) from the `emptyRule` pointer
and previous maximum `-1`.  `noRules` is the scratch-mask length chosen at
`Init`.  `none` is a propagated runtime panic (the intersect buffer overflow
or an out-of-range mask access); `some none` is the default rule. -/
def classifyCore (config : MapRules) (noRules : Nat) (extensions : List ExtnType)
    (pkt : RtrPkt) : Option (Option RuleRef) :=
  let crs := config.RulesList
  let l4t := pkt.l4Type
  let sad := (sadOf config pkt).map some
  let das := (dasOf config pkt).map some
  let intfList := (intfOf config pkt).map some
  let l4Only := config.L4OnlyRules.map some
  (intersectListsRules (sourcesOf config pkt) (destinationsOf config pkt)).bind fun matched =>
  (matchL4Type crs noRules matched l4t extensions).bind fun maskMatched =>
  (matchL4Type crs noRules sad l4t extensions).bind fun maskSad =>
  (matchL4Type crs noRules das l4t extensions).bind fun maskDas =>
  (matchL4Type crs noRules l4Only l4t extensions).bind fun maskLf =>
  (matchL4Type crs noRules intfList l4t extensions).bind fun maskIntf =>
  (getRuleWithPrevMax crs none maskMatched matched (-1)).bind fun s1 =>
  (getRuleWithPrevMax crs s1.2 maskSad sad s1.1).bind fun s2 =>
  (getRuleWithPrevMax crs s2.2 maskDas das s2.1).bind fun s3 =>
  (getRuleWithPrevMax crs s3.2 maskIntf intfList s3.1).bind fun s4 =>
  (getRuleWithPrevMax crs s4.2 maskLf l4Only s4.1).bind fun s5 =>
  some s5.2

/-- The scratch extension slice after `Init`: 255 zero-valued entries. -/
def InitExtensions : List ExtnType := List.replicate 255 zeroExtn

/-- `CachelessClassRule.GetRuleForPacket`: append the packet's extension
types to the scratch slice (never cleared), then run the full match.  Returns
the chosen rule pointer together with the new scratch state. -/
def CachelessGetRuleForPacket (config : MapRules) (noRules : Nat) (st : List ExtnType)
    (pkt : RtrPkt) : Option (Option RuleRef × List ExtnType) :=
  let extensions := st ++ pkt.hbhExt ++ pkt.e2eExt
  match classifyCore config noRules extensions pkt with
  | none => none
  | some res => some (res, extensions)

/-- The full-match path of `RegularClassRule.GetRuleForPacket`: classify and
store the result in the cache under the packet's key. -/
def regularFullPath (config : MapRules) (noRules : Nat) (cache : Cache)
    (st : List ExtnType) (pkt : RtrPkt) :
    Option (Option RuleRef × Cache × List ExtnType) :=
  let extensions := st ++ pkt.hbhExt ++ pkt.e2eExt
  match classifyCore config noRules extensions pkt with
  | none => none
  | some ret => some (ret, cachePut cache (entryOf pkt) ret, extensions)

/-- `RegularClassRule.GetRuleForPacket`: append the packet's extensions to
the scratch slice, then on a cache hit that passes the extension re-check
return the cached pointer unchanged; otherwise run the full match and cache
its result. -/
def RegularGetRuleForPacket (config : MapRules) (noRules : Nat) (cache : Cache)
    (st : List ExtnType) (pkt : RtrPkt) :
    Option (Option RuleRef × Cache × List ExtnType) :=
  let extensions := st ++ pkt.hbhExt ++ pkt.e2eExt
  match cache (entryOf pkt) with
  | some r =>
      if matchRuleL4ExtensionType (derefOpt config.RulesList r) extensions then
        some (r, cache, extensions)
      else
        regularFullPath config noRules cache st pkt
  | none => regularFullPath config noRules cache st pkt

/-- Run the cacheless classifier over a packet sequence, threading the
scratch extension state. -/
def runCacheless (config : MapRules) (noRules : Nat) :
    List ExtnType → List RtrPkt → Option (List ExtnType)
  | st, [] => some st
  | st, p :: ps =>
      match CachelessGetRuleForPacket config noRules st p with
      | none => none
      | some pr => runCacheless config noRules pr.2 ps

/-- The extension types a packet contributes to the scratch slice. -/
def pktExtList (pkt : RtrPkt) : List ExtnType := pkt.hbhExt ++ pkt.e2eExt

/-- Modelled from the spec: the admission verdicts of the `conf` package
(`PoliceAction`), one of PASS, DROP, DROPNOTIFY, MARK. -/
inductive PoliceAction where
  | PASS
  | DROP
  | DROPNOTIFY
  | MARK
deriving DecidableEq

/-- Modelled from the spec: one entry of a queue's fill profile
(`conf.ActionProfile`): a fill level, a probability in percent, and an action. -/
structure ActionProfile where
  FillLevel : Nat
  Prob : Nat
  Action : PoliceAction
deriving DecidableEq

/-- Modelled from the spec: the per-queue descriptor (`queues.PacketQueue`);
only the fields consulted by `CheckAction` are kept. -/
structure PacketQueue where
  MaxLength : Nat
  Profile : List ActionProfile
deriving DecidableEq

/-- `GetFillLevel`: the fill level of the queue in percent.  The Go code
computes `int(float64(length) / float64(maxLength) * 100)`; both queue
variants use the identical expression, modelled as Nat division. -/
def getFillLevel (length maxLength : Nat) : Nat :=
  length * 100 / maxLength

/-- The profile scan shared verbatim by both `CheckAction` variants: walk the
profile from the highest index downward (the argument is the reversed
profile); at each entry whose fill level is reached, draw one uniform sample
in `[0,100)` and fire the entry's action when the sample is below its
probability, otherwise keep scanning.  `rand k` is the value of the `k`-th
`rand.Intn(100)` call. -/
def scanProfileRev (level : Nat) (rand : Nat → Nat) :
    List ActionProfile → Nat → PoliceAction
  | [], _ => PoliceAction.PASS
  | e :: rest, k =>
      if e.FillLevel ≤ level then
        if rand k < e.Prob then e.Action else scanProfileRev level rand rest (k + 1)
      else
        scanProfileRev level rand rest k

/-- `ChannelPacketQueue.CheckAction`: return DROPNOTIFY outright when the
queue is at or above capacity, otherwise scan the fill profile. -/
def ChannelCheckAction (pq : PacketQueue) (length : Nat) (rand : Nat → Nat) : PoliceAction :=
  if pq.MaxLength ≤ length then PoliceAction.DROPNOTIFY
  else scanProfileRev (getFillLevel length pq.MaxLength) rand pq.Profile.reverse 0

/-- `PacketBufQueue.CheckAction`: the ring-buffer variant scans the fill
profile directly, with no capacity check. -/
def PacketBufCheckAction (pq : PacketQueue) (length : Nat) (rand : Nat → Nat) : PoliceAction :=
  scanProfileRev (getFillLevel length pq.MaxLength) rand pq.Profile.reverse 0

/-- `GetCapacity`: the maximum number of items on the queue, the configured
`MaxLength` (the Go channel is allocated with `MaxLength + 1` slots, but the
reported capacity is `MaxLength`). -/
def GetCapacity (pq : PacketQueue) : Nat := pq.MaxLength

/-- The states of a channel queue reachable by the admission discipline: the
queue starts empty; a packet is enqueued only after a `CheckAction` call (at
the current length, with some random samples) returned PASS; `Pop` removes
the front (`PopMultiple` is iterated `Pop`). -/
inductive ChanReachable (pq : PacketQueue) : List Nat → Prop where
  | init : ChanReachable pq []
  | enq (s : List Nat) (p : Nat) (rand : Nat → Nat) : ChanReachable pq s →
      ChannelCheckAction pq s.length rand = PoliceAction.PASS →
      ChanReachable pq (s ++ [p])
  | pop (s : List Nat) : ChanReachable pq s → ChanReachable pq s.tail

/-- Modelled from the spec: an external (configuration-file) class rule
(`conf.ExternalClassRule`): string-typed identifiers, integer match-mode
codes, and a list of (base protocol, extension) pairs. -/
structure ExternalProtocolMatch where
  BaseProtocol : Nat
  Extension : Int
deriving DecidableEq

/-- Modelled from the spec: the external rule record consumed by
`ConvClassRuleToInternal`. -/
structure ExternalClassRule where
  Name : String
  Priority : Int
  SourceAs : String
  SourceMatchMode : Int
  DestinationAs : String
  DestinationMatchMode : Int
  L4Type : List ExternalProtocolMatch
  QueueNumber : Nat
deriving DecidableEq

/-- The structured errors of `getMatchRuleTypeFromRule`: an identifier that
`addr.IAFromString` rejects, a range field that does not split into two
parts, and an unknown match-mode code. -/
inductive ConvError where
  | addrParse (field : String)
  | invalidClass (raw : Int)
  | invalidMatchMode (mm : Int)
deriving DecidableEq

/-- The match mode denoted by a code in 0, 1, 2, 4 (Go converts the integer
directly). -/
def modeOfCode (mm : Int) : matchMode :=
  if mm = 0 then matchMode.EXACT
  else if mm = 1 then matchMode.ISDONLY
  else if mm = 2 then matchMode.ASONLY
  else matchMode.ANY

/-- `getMatchRuleTypeFromRule`: build one `matchRule` side from a mode code
and a string field.  `pIA` models the external collaborator
`addr.IAFromString`, `pInt` models `strconv.ParseInt(s, 0, 64)` (yielding
`none` and a Go result of 0 on a syntax error).  In the `INTF` branch the Go
code discards the parse error (`intf, _ := strconv.ParseInt(...)`), so the
branch never fails; `uint64(intf)` is the truncation modulo `2 ^ 64`. -/
def getMatchRuleTypeFromRule (pIA : String → Option IA) (pInt : String → Option Int)
    (matchModeField : Int) (matchRuleField : String) : Except ConvError matchRule :=
  if matchModeField = 0 ∨ matchModeField = 1 ∨ matchModeField = 2 ∨ matchModeField = 4 then
    match pIA matchRuleField with
    | none => Except.error (ConvError.addrParse matchRuleField)
    | some ia => Except.ok ⟨ia, zeroIA, zeroIA, 0, modeOfCode matchModeField⟩
  else if matchModeField = 3 then
    match matchRuleField.splitOn "||" with
    | [lowS, upS] =>
        match pIA lowS with
        | none => Except.error (ConvError.addrParse lowS)
        | some lowLim =>
            match pIA upS with
            | none => Except.error (ConvError.addrParse upS)
            | some upLim => Except.ok ⟨zeroIA, lowLim, upLim, 0, matchMode.RANGE⟩
    | _ => Except.error (ConvError.invalidClass matchModeField)
  else if matchModeField = 5 then
    Except.ok ⟨zeroIA, zeroIA, zeroIA, (((pInt matchRuleField).getD 0) % (2 ^ 64)).toNat, matchMode.INTF⟩
  else
    Except.error (ConvError.invalidMatchMode matchModeField)

/-- `ConvClassRuleToInternal`: convert an external rule to an internal rule,
propagating the first error of either side's `getMatchRuleTypeFromRule`. -/
def ConvClassRuleToInternal (pIA : String → Option IA) (pInt : String → Option Int)
    (cr : ExternalClassRule) : Except ConvError InternalClassRule :=
  match getMatchRuleTypeFromRule pIA pInt cr.SourceMatchMode cr.SourceAs with
  | Except.error e => Except.error e
  | Except.ok sourceMatch =>
      match getMatchRuleTypeFromRule pIA pInt cr.DestinationMatchMode cr.DestinationAs with
      | Except.error e => Except.error e
      | Except.ok destinationMatch =>
          Except.ok ⟨cr.Name, cr.Priority, sourceMatch, destinationMatch,
            cr.L4Type.map (fun p => ⟨p.BaseProtocol, p.Extension⟩), cr.QueueNumber⟩

/-- The running-maximum fold of priorities over a list of scanned rule
references, starting from a previous maximum. -/
def maxAcc (crs : List InternalClassRule) (m0 : Int) (S : List RuleRef) : Int :=
  S.foldl (fun m r => max m (deref crs r).Priority) m0

/-- Characterisation of one or more chained `getRuleWithPrevMax` passes over
the scanned references `S`: the resulting maximum is the running-maximum fold
over `S`, and the resulting rule pointer is either the incoming one (with the
maximum unchanged) or a scanned rule realising the strictly increased
maximum. -/
def MaxSel (crs : List InternalClassRule) (r0 : Option RuleRef) (m0 : Int)
    (S : List RuleRef) (res : Int × Option RuleRef) : Prop :=
  res.1 = maxAcc crs m0 S ∧
    ((res.2 = r0 ∧ res.1 = m0) ∨
      ∃ r, r ∈ S ∧ res.2 = some r ∧ (deref crs r).Priority = res.1 ∧ m0 < res.1)

/-- The prefix of one candidate list examined by its `getRuleWithPrevMax`
pass — the entries before the first mask-false position — read off the mask
its `matchL4Type` call computes (empty when that call panics, in which case
no scan happens at all). -/
def scannedOf (crs : List InternalClassRule) (noRules : Nat)
    (list : List (Option RuleRef)) (l4t : Nat) (extensions : List ExtnType) :
    List RuleRef :=
  match matchL4Type crs noRules list l4t extensions with
  | none => []
  | some mask => scanned mask list

/-- The references examined by the five scans of a completing run of
`GetRuleForPacket`, in the code's scan order. -/
def scannedSurvivors (config : MapRules) (noRules : Nat) (extensions : List ExtnType)
    (pkt : RtrPkt) (matched : List (Option RuleRef)) : List RuleRef :=
  let crs := config.RulesList
  let l4t := pkt.l4Type
  scannedOf crs noRules matched l4t extensions ++
    scannedOf crs noRules ((sadOf config pkt).map some) l4t extensions ++
    scannedOf crs noRules ((dasOf config pkt).map some) l4t extensions ++
    scannedOf crs noRules ((intfOf config pkt).map some) l4t extensions ++
    scannedOf crs noRules (config.L4OnlyRules.map some) l4t extensions

/-- Claim formula for the per-rule L4 decision, following the claim's words:
some `ProtocolMatchType` entry must match the l4 type AND itself satisfy the
extension clause (same entry for both conjuncts). -/
def claimRuleL4Match (rule : InternalClassRule) (l4t : Nat) (exts : List ExtnType) : Bool :=
  rule.L4Type.any fun pm =>
    pm.baseProtocol == l4t &&
      (pm.extension == -1 ||
        exts.any fun e => e.Class == pm.baseProtocol && (e.Typ : Int) == pm.extension)

/-- Claim formula for the union of L4-surviving candidates over the five
candidate groups, following the claim's words (every member of every group is
considered, not only a scanned prefix). -/
def l4SurvivorsSpec (config : MapRules) (extensions : List ExtnType) (pkt : RtrPkt)
    (matched : List (Option RuleRef)) : List RuleRef :=
  (matched.filterMap id ++ sadOf config pkt ++ dasOf config pkt ++ intfOf config pkt ++
      config.L4OnlyRules).filter
    fun r => matchL4TypeOne (deref config.RulesList r) pkt.l4Type extensions

/-- Claim-side variant of the classifier body, following the claim's words
for the two any-side lookups: `dstAny` read from `DestinationAnySourceRules`
indexed by the packet's SOURCE address and `srcAny` from
`SourceAnyDestinationRules` indexed by the packet's DESTINATION address
(the code indexes them the other way around). -/
def classifyCoreClaimIndexed (config : MapRules) (noRules : Nat)
    (extensions : List ExtnType) (pkt : RtrPkt) : Option (Option RuleRef) :=
  let crs := config.RulesList
  let l4t := pkt.l4Type
  let sad := (config.SourceAnyDestinationRules pkt.dstIA).map some
  let das := (config.DestinationAnySourceRules pkt.srcIA).map some
  let intfList := (intfOf config pkt).map some
  let l4Only := config.L4OnlyRules.map some
  (intersectListsRules (sourcesOf config pkt) (destinationsOf config pkt)).bind fun matched =>
  (matchL4Type crs noRules matched l4t extensions).bind fun maskMatched =>
  (matchL4Type crs noRules sad l4t extensions).bind fun maskSad =>
  (matchL4Type crs noRules das l4t extensions).bind fun maskDas =>
  (matchL4Type crs noRules l4Only l4t extensions).bind fun maskLf =>
  (matchL4Type crs noRules intfList l4t extensions).bind fun maskIntf =>
  (getRuleWithPrevMax crs none maskMatched matched (-1)).bind fun s1 =>
  (getRuleWithPrevMax crs s1.2 maskSad sad s1.1).bind fun s2 =>
  (getRuleWithPrevMax crs s2.2 maskDas das s2.1).bind fun s3 =>
  (getRuleWithPrevMax crs s3.2 maskIntf intfList s3.1).bind fun s4 =>
  (getRuleWithPrevMax crs s4.2 maskLf l4Only s4.1).bind fun s5 =>
  some s5.2

/-- A source or destination side that matches anything. -/
def anyMR : matchRule := ⟨zeroIA, zeroIA, zeroIA, 0, matchMode.ANY⟩

/-- Fixture for C1: two protocol entries; the first matches protocol 6 but
demands extension 5, the second is for protocol 17 with wildcard extension. -/
def ruleC1fix : InternalClassRule :=
  ⟨"r", 0, anyMR, anyMR, [⟨6, 5⟩, ⟨17, -1⟩], 0⟩

/-- Fixture for C2: an any/any rule whose empty L4 list survives nothing. -/
def ruleEmptyL4 : InternalClassRule := ⟨"zero", 99, anyMR, anyMR, [], 0⟩

/-- Fixture for C2: an any/any rule matching protocol 6 with any extension. -/
def ruleTcpAny : InternalClassRule := ⟨"one", 5, anyMR, anyMR, [⟨6, -1⟩], 0⟩

/-- Fixture rule list for C2. -/
def crsC2 : List InternalClassRule := [ruleEmptyL4, ruleTcpAny]

/-- Fixture for C2: a rule matching source (1,1) exactly and destination
(2,2) exactly, protocol 6, any extension. -/
def ruleExactExact : InternalClassRule :=
  ⟨"ee", 1, ⟨⟨1, 1⟩, zeroIA, zeroIA, 0, matchMode.EXACT⟩,
    ⟨⟨2, 2⟩, zeroIA, zeroIA, 0, matchMode.EXACT⟩, [⟨6, -1⟩], 0⟩

/-- Fixture packet for C2, C3: protocol 6, no extensions. -/
def pktNoExt : RtrPkt := ⟨⟨1, 1⟩, ⟨2, 2⟩, 0, 6, [], []⟩

/-- Fixture for C3: low-priority any/any rule with wildcard extension. -/
def ruleLowWild : InternalClassRule := ⟨"A", 1, anyMR, anyMR, [⟨6, -1⟩], 0⟩

/-- Fixture for C3, C10: high-priority any/any rule demanding extension
class 6, type 5. -/
def ruleHighExt : InternalClassRule := ⟨"B", 10, anyMR, anyMR, [⟨6, 5⟩], 0⟩

/-- Fixture rule list for C3. -/
def crsC3 : List InternalClassRule := [ruleLowWild, ruleHighExt]

/-- Fixture packet for C3, C10: same key as `pktNoExt` but carrying the
hop-by-hop extension (class 6, type 5). -/
def pktWithExt : RtrPkt := ⟨⟨1, 1⟩, ⟨2, 2⟩, 0, 6, [⟨6, 5⟩], []⟩

/-- Fixture cache for C3: exactly the state `Put` leaves after classifying
`pktNoExt` from the empty cache (the key does not involve extensions). -/
def cacheC3 : Cache := cachePut cacheEmpty (entryOf pktNoExt) (some 0)

/-- Fixture for C6: source matches anything, destination exactly (2, 2). -/
def ruleC6fix : InternalClassRule :=
  ⟨"anyexact", 1, anyMR, ⟨⟨2, 2⟩, zeroIA, zeroIA, 0, matchMode.EXACT⟩, [⟨6, -1⟩], 0⟩

/-- Fixture rule list for C10: a single extension-constrained any/any rule. -/
def crsC10 : List InternalClassRule := [ruleHighExt]

/-- Fixture buckets for C4: eleven identical references in the first source
and destination buckets produce eleven matching pairs. -/
def bucketsEleven : List (List RuleRef) :=
  [[0, 1, 2, 3, 4, 5, 6, 7, 8, 9, 10], [], []]

/-- Fixture buckets for the C4 witness: a single common reference. -/
def bucketsOne : List (List RuleRef) := [[0], [], []]

/-- Fixture parser that accepts every identifier string as (0, 0). -/
def pIAconst : String → Option IA := fun _ => some zeroIA

/-- Fixture parser that rejects every identifier string. -/
def pIAnone : String → Option IA := fun _ => none

/-- Fixture integer parser on which every string is a syntax error, as
`strconv.ParseInt("abc", 0, 64)` is. -/
def pIntNone : String → Option Int := fun _ => none

/-- Fixture external rule for C7: source side `INTF` (code 5) with the
non-numeric interface field "abc"; destination side `ANY` (code 4). -/
def crBadIntf : ExternalClassRule :=
  ⟨"intfrule", 0, "abc", 5, "1-1", 4, [], 0⟩

/-- Fixture trivial packet. -/
def pktZero : RtrPkt := ⟨zeroIA, zeroIA, 0, 0, [], []⟩

/-- Fixture empty configuration. -/
def cfgEmpty : MapRules := RulesToMap []

theorem maxAcc_nil (crs : List InternalClassRule) (m0 : Int) : maxAcc crs m0 [] = m0 := rfl

theorem maxAcc_cons (crs : List InternalClassRule) (m0 : Int) (r : RuleRef) (S : List RuleRef) :
    maxAcc crs m0 (r :: S) = maxAcc crs (max m0 (deref crs r).Priority) S := rfl

theorem maxAcc_append (crs : List InternalClassRule) (m0 : Int) (S1 S2 : List RuleRef) :
    maxAcc crs m0 (S1 ++ S2) = maxAcc crs (maxAcc crs m0 S1) S2 := by
  simp [maxAcc, List.foldl_append]

theorem le_maxAcc (crs : List InternalClassRule) :
    ∀ (S : List RuleRef) (m0 : Int), m0 ≤ maxAcc crs m0 S := by
  intro S
  induction S with
  | nil => intro m0; exact le_of_eq rfl
  | cons r S ih =>
      intro m0
      rw [maxAcc_cons]
      exact le_trans (le_max_left _ _) (ih _)

theorem maxsel_getRule (crs : List InternalClassRule) :
    ∀ (mask : List Bool) (list : List (Option RuleRef)) (r0 : Option RuleRef) (m0 : Int)
      (res : Int × Option RuleRef),
      getRuleWithPrevMax crs r0 mask list m0 = some res →
      MaxSel crs r0 m0 (scanned mask list) res := by
  intro mask
  induction mask with
  | nil =>
      intro list r0 m0 res h
      cases list with
      | nil =>
          obtain rfl : (m0, r0) = res := Option.some_inj.mp h
          exact ⟨rfl, Or.inl ⟨rfl, rfl⟩⟩
      | cons o rs => nomatch h
  | cons b ms ih =>
      intro list r0 m0 res h
      cases b with
      | false =>
          cases list with
          | nil =>
              obtain rfl : (m0, r0) = res := Option.some_inj.mp h
              exact ⟨rfl, Or.inl ⟨rfl, rfl⟩⟩
          | cons o rs =>
              obtain rfl : (m0, r0) = res := Option.some_inj.mp h
              exact ⟨rfl, Or.inl ⟨rfl, rfl⟩⟩
      | true =>
          cases list with
          | nil =>
              obtain rfl : (m0, r0) = res := Option.some_inj.mp h
              exact ⟨rfl, Or.inl ⟨rfl, rfl⟩⟩
          | cons o rs =>
              cases o with
              | none => nomatch h
              | some r =>
                  have hred : getRuleWithPrevMax crs r0 (true :: ms) (some r :: rs) m0 =
                      if m0 < (deref crs r).Priority then
                        getRuleWithPrevMax crs (some r) ms rs (deref crs r).Priority
                      else
                        getRuleWithPrevMax crs r0 ms rs m0 := rfl
                  have hsc : scanned (true :: ms) (some r :: rs) = r :: scanned ms rs := rfl
                  rw [hred] at h
                  rw [hsc]
                  by_cases hlt : m0 < (deref crs r).Priority
                  · rw [if_pos hlt] at h
                    obtain ⟨h1, h2⟩ := ih rs (some r) (deref crs r).Priority res h
                    constructor
                    · rw [h1, maxAcc_cons, max_eq_right hlt.le]
                    · cases h2 with
                      | inl hh =>
                          exact Or.inr ⟨r, List.mem_cons_self r _, hh.1,
                            by rw [hh.2], by rw [hh.2]; exact hlt⟩
                      | inr hh =>
                          obtain ⟨r', hr'mem, hr'eq, hr'pri, hr'lt⟩ := hh
                          exact Or.inr ⟨r', List.mem_cons_of_mem _ hr'mem, hr'eq, hr'pri,
                            lt_trans hlt hr'lt⟩
                  · rw [if_neg hlt] at h
                    obtain ⟨h1, h2⟩ := ih rs r0 m0 res h
                    constructor
                    · rw [h1, maxAcc_cons, max_eq_left (not_lt.mp hlt)]
                    · cases h2 with
                      | inl hh => exact Or.inl hh
                      | inr hh =>
                          obtain ⟨r', hr'mem, hr'eq, hr'pri, hr'lt⟩ := hh
                          exact Or.inr ⟨r', List.mem_cons_of_mem _ hr'mem, hr'eq, hr'pri, hr'lt⟩

theorem getRule_nil_list (crs : List InternalClassRule) (r0 : Option RuleRef)
    (mask : List Bool) (m : Int) :
    getRuleWithPrevMax crs r0 mask [] m = some (m, r0) := by
  cases mask with
  | nil => rfl
  | cons b ms => cases b <;> rfl

theorem maxsel_comp (crs : List InternalClassRule) {r0 : Option RuleRef} {m0 : Int}
    {S1 S2 : List RuleRef} {p : Int × Option RuleRef} {q : Int × Option RuleRef}
    (h1 : MaxSel crs r0 m0 S1 p) (h2 : MaxSel crs p.2 p.1 S2 q) :
    MaxSel crs r0 m0 (S1 ++ S2) q := by
  obtain ⟨h1a, h1b⟩ := h1
  obtain ⟨h2a, h2b⟩ := h2
  have hm : m0 ≤ p.1 := by rw [h1a]; exact le_maxAcc crs S1 m0
  constructor
  · rw [maxAcc_append, ← h1a, ← h2a]
  · cases h2b with
    | inl hq =>
        cases h1b with
        | inl hp => exact Or.inl ⟨by rw [hq.1, hp.1], by rw [hq.2, hp.2]⟩
        | inr hp =>
            obtain ⟨r, hrmem, hreq, hrpri, hrlt⟩ := hp
            exact Or.inr ⟨r, List.mem_append_left _ hrmem, by rw [hq.1, hreq],
              by rw [hq.2, hrpri], by rw [hq.2]; exact hrlt⟩
    | inr hq =>
        obtain ⟨r, hrmem, hreq, hrpri, hrlt⟩ := hq
        exact Or.inr ⟨r, List.mem_append_right _ hrmem, hreq, hrpri, lt_of_le_of_lt hm hrlt⟩

theorem classifyCore_spec (config : MapRules) (noRules : Nat) (extensions : List ExtnType)
    (pkt : RtrPkt) (res : Option RuleRef)
    (h : classifyCore config noRules extensions pkt = some res) :
    ∃ matched, intersectListsRules (sourcesOf config pkt) (destinationsOf config pkt) =
        some matched ∧
      MaxSel config.RulesList none (-1)
        (scannedSurvivors config noRules extensions pkt matched)
        (maxAcc config.RulesList (-1)
          (scannedSurvivors config noRules extensions pkt matched), res) := by
  simp only [classifyCore, Option.bind_eq_some', Option.some_inj] at h
  obtain ⟨matched, hI, maskMatched, hm1, maskSad, hm2, maskDas, hm3, maskLf, hm4,
    maskIntf, hm5, s1, hg1, s2, hg2, s3, hg3, s4, hg4, s5, hg5, hres⟩ := h
  refine ⟨matched, hI, ?_⟩
  have hS : scannedSurvivors config noRules extensions pkt matched =
      scanned maskMatched matched ++
        scanned maskSad ((sadOf config pkt).map some) ++
        scanned maskDas ((dasOf config pkt).map some) ++
        scanned maskIntf ((intfOf config pkt).map some) ++
        scanned maskLf (config.L4OnlyRules.map some) := by
    simp only [scannedSurvivors, scannedOf, hm1, hm2, hm3, hm4, hm5]
  have H1 := maxsel_getRule config.RulesList maskMatched matched none (-1) s1 hg1
  have H2 := maxsel_getRule config.RulesList maskSad ((sadOf config pkt).map some)
    s1.2 s1.1 s2 hg2
  have H12 := maxsel_comp config.RulesList H1 H2
  have H3 := maxsel_getRule config.RulesList maskDas ((dasOf config pkt).map some)
    s2.2 s2.1 s3 hg3
  have H123 := maxsel_comp config.RulesList H12 H3
  have H4 := maxsel_getRule config.RulesList maskIntf ((intfOf config pkt).map some)
    s3.2 s3.1 s4 hg4
  have H1234 := maxsel_comp config.RulesList H123 H4
  have H5 := maxsel_getRule config.RulesList maskLf (config.L4OnlyRules.map some)
    s4.2 s4.1 s5 hg5
  have H := maxsel_comp config.RulesList H1234 H5
  rw [hS, ← H.1, ← hres, Prod.mk.eta]
  exact H

theorem mem_intersectPairs (a b : List (List RuleRef)) (r : RuleRef) :
    r ∈ intersectPairs a b ↔ ((∃ la ∈ a, r ∈ la) ∧ (∃ lb ∈ b, r ∈ lb)) := by
  simp only [intersectPairs, List.mem_flatMap, List.mem_map, List.mem_filter, beq_iff_eq]
  constructor
  · rintro ⟨la, hla, lb, hlb, x, hx, y, ⟨hylb, hyx⟩, rfl⟩
    exact ⟨⟨la, hla, hx⟩, ⟨lb, hlb, hyx ▸ hylb⟩⟩
  · rintro ⟨⟨la, hla, hrla⟩, ⟨lb, hlb, hrlb⟩⟩
    exact ⟨la, hla, lb, hlb, r, hrla, r, ⟨hrlb, rfl⟩, rfl⟩

theorem mem_intersect_res (a b : List (List RuleRef)) (res : List (Option RuleRef))
    (h : intersectListsRules a b = some res) (r : RuleRef) :
    some r ∈ res ↔ ((∃ la ∈ a, r ∈ la) ∧ (∃ lb ∈ b, r ∈ lb)) := by
  unfold intersectListsRules at h
  by_cases hlen : (intersectPairs a b).length ≤ 10
  · rw [if_pos hlen] at h
    obtain rfl := (Option.some_inj.mp h).symm
    rw [← mem_intersectPairs a b r]
    simp [List.mem_append, List.mem_replicate]
  · rw [if_neg hlen] at h
    exact absurd h (by simp)

theorem mapAdd_mem {κ : Type} [DecidableEq κ] (m : κ → List RuleRef) (key x : κ)
    (v r : RuleRef) (h : r ∈ m x) : r ∈ mapAdd m key v x := by
  unfold mapAdd
  by_cases hx : x = key
  · subst hx; rw [if_pos rfl]; exact List.mem_append_left _ h
  · rw [if_neg hx]; exact h

theorem mapAdd_mem_self {κ : Type} [DecidableEq κ] (m : κ → List RuleRef) (key : κ)
    (v : RuleRef) : v ∈ mapAdd m key v key := by
  unfold mapAdd
  rw [if_pos rfl]
  exact List.mem_append_right _ (List.mem_singleton.mpr rfl)

theorem das_step_mono (mp : MapRules) (k : RuleRef) (cr : InternalClassRule) (r : RuleRef)
    (ia : IA) (h : r ∈ mp.DestinationAnySourceRules ia) :
    r ∈ (rulesToMapStep mp k cr).DestinationAnySourceRules ia := by
  unfold rulesToMapStep
  cases hs : cr.SourceAs.matchMode <;> cases hd : cr.DestinationAs.matchMode <;>
    simp only [hs, hd, ne_eq, reduceCtorEq, not_false_eq_true, if_true, if_false,
      reduceIte, not_true_eq_false] <;>
    first
      | exact h
      | exact mapAdd_mem _ _ _ _ _ h

theorem das_step_self (mp : MapRules) (k : RuleRef) (cr : InternalClassRule)
    (hs : cr.SourceAs.matchMode = matchMode.ANY)
    (hd : cr.DestinationAs.matchMode ≠ matchMode.ANY) :
    k ∈ (rulesToMapStep mp k cr).DestinationAnySourceRules cr.DestinationAs.IA := by
  unfold rulesToMapStep
  cases hdm : cr.DestinationAs.matchMode <;>
    simp only [hs, hdm, ne_eq, reduceCtorEq, not_false_eq_true, if_true, if_false, reduceIte,
      not_true_eq_false] <;>
    first
      | exact mapAdd_mem_self _ _ _
      | exact absurd hdm hd

theorem das_fold_mono :
    ∀ (l : List (Nat × InternalClassRule)) (base : MapRules) (r : RuleRef) (ia : IA),
      r ∈ base.DestinationAnySourceRules ia →
      r ∈ (l.foldl (fun mp p => rulesToMapStep mp p.1 p.2) base).DestinationAnySourceRules ia := by
  intro l
  induction l with
  | nil => intro base r ia h; exact h
  | cons hd tl ih =>
      intro base r ia h
      exact ih _ r ia (das_step_mono base hd.1 hd.2 r ia h)

theorem das_fold_mem :
    ∀ (l : List (Nat × InternalClassRule)) (base : MapRules) (k : RuleRef)
      (cr : InternalClassRule), (k, cr) ∈ l → cr.SourceAs.matchMode = matchMode.ANY →
      cr.DestinationAs.matchMode ≠ matchMode.ANY →
      k ∈ (l.foldl (fun mp p =>
        rulesToMapStep mp p.1 p.2) base).DestinationAnySourceRules cr.DestinationAs.IA := by
  intro l
  induction l with
  | nil => intro base k cr h; exact absurd h (List.not_mem_nil _)
  | cons hd tl ih =>
      intro base k cr h hs hdm
      rcases List.mem_cons.mp h with heq | htl
      · subst heq
        exact das_fold_mono tl _ k cr.DestinationAs.IA (das_step_self base k cr hs hdm)
      · exact ih _ k cr htl hs hdm

theorem runCacheless_extensions (config : MapRules) (noRules : Nat) :
    ∀ (pkts : List RtrPkt) (st st' : List ExtnType),
      runCacheless config noRules st pkts = some st' →
      st' = st ++ (pkts.map pktExtList).flatten := by
  intro pkts
  induction pkts with
  | nil =>
      intro st st' h
      simp only [runCacheless, Option.some_inj] at h
      simp [← h]
  | cons p ps ih =>
      intro st st' h
      simp only [runCacheless, CachelessGetRuleForPacket] at h
      cases hc : classifyCore config noRules (st ++ p.hbhExt ++ p.e2eExt) p with
      | none => rw [hc] at h; exact absurd h (by simp)
      | some res =>
          rw [hc] at h
          have := ih (st ++ p.hbhExt ++ p.e2eExt) st' h
          simp [this, pktExtList, List.append_assoc]

theorem regular_extensions_eq (config : MapRules) (noRules : Nat) (cache : Cache)
    (st : List ExtnType) (pkt : RtrPkt) (out : Option RuleRef × Cache × List ExtnType)
    (h : RegularGetRuleForPacket config noRules cache st pkt = some out) :
    out.2.2 = st ++ pkt.hbhExt ++ pkt.e2eExt := by
  have hfull : ∀ (hf : regularFullPath config noRules cache st pkt = some out),
      out.2.2 = st ++ pkt.hbhExt ++ pkt.e2eExt := by
    intro hf
    cases hc : classifyCore config noRules (st ++ pkt.hbhExt ++ pkt.e2eExt) pkt with
    | none => simp only [regularFullPath, hc] at hf; exact absurd hf (by simp)
    | some ret =>
        simp only [regularFullPath, hc, Option.some_inj] at hf
        obtain rfl := hf.symm
        rfl
  cases hc : cache (entryOf pkt) with
  | some r =>
      simp only [RegularGetRuleForPacket, hc] at h
      by_cases hm : matchRuleL4ExtensionType (derefOpt config.RulesList r)
          (st ++ pkt.hbhExt ++ pkt.e2eExt) = true
      · rw [if_pos hm] at h
        obtain rfl := Option.some_inj.mp h.symm
        rfl
      · rw [if_neg hm] at h
        exact hfull h
  | none =>
      simp only [RegularGetRuleForPacket, hc] at h
      exact hfull h

theorem fullpath_no_negative (config : MapRules) (noRules : Nat) (cache : Cache)
    (st : List ExtnType) (pkt : RtrPkt) (res : Option RuleRef)
    (h : (regularFullPath config noRules cache st pkt).map Prod.fst = some res) :
    res = none ∨ -1 < (derefOpt config.RulesList res).Priority := by
  cases hc : classifyCore config noRules (st ++ pkt.hbhExt ++ pkt.e2eExt) pkt with
  | none => simp only [regularFullPath, hc] at h; exact absurd h (by simp)
  | some ret =>
      simp only [regularFullPath, hc, Option.map_some', Option.some_inj] at h
      obtain rfl : res = ret := h.symm
      obtain ⟨matched, hI, hM⟩ := classifyCore_spec config noRules
        (st ++ pkt.hbhExt ++ pkt.e2eExt) pkt res hc
      obtain ⟨h1, h2⟩ := hM
      cases h2 with
      | inl hh =>
          have hres : res = none := hh.1
          exact Or.inl hres
      | inr hh =>
          obtain ⟨r, _, hreq, hrpri, hrlt⟩ := hh
          have hreq' : res = some r := hreq
          have hrpri' : (deref config.RulesList r).Priority =
              maxAcc config.RulesList (-1)
                (scannedSurvivors config noRules (st ++ pkt.hbhExt ++ pkt.e2eExt) pkt
                  matched) := hrpri
          have hrlt' : (-1 : Int) <
              maxAcc config.RulesList (-1)
                (scannedSurvivors config noRules (st ++ pkt.hbhExt ++ pkt.e2eExt) pkt
                  matched) := hrlt
          refine Or.inr ?_
          rw [hreq']
          show -1 < (deref config.RulesList r).Priority
          rw [hrpri']
          exact hrlt'

/-- C1 counterexample: for the rule with L4 entries (base 6, extension 5) and
(base 17, extension -1) and the packet (l4 6, no extensions), the code's
per-rule L4 decision accepts — entry 0 matches the protocol, entry 1 supplies
the wildcard extension — while the claim's formula, which requires the same
entry to satisfy both conjuncts, rejects. -/
theorem c1_counterexample :
    matchL4TypeOne ruleC1fix 6 [] = true ∧ claimRuleL4Match ruleC1fix 6 [] = false := by
  decide

/-- C1 (amended): the rule's L4 disjunction accepts the packet (l4, exts) iff
SOME entry's base protocol equals l4 AND SOME (possibly different) entry pm
has pm.extension = -1 or some e in exts with e.class = pm.baseProtocol and
e.type = the uint8 truncation of pm.extension; the two existentials are
decoupled.  A rule with an empty l4 list still matches no packet. -/
theorem c1_l4_match_decoupled (rule : InternalClassRule) (l4t : Nat) (exts : List ExtnType) :
    matchL4TypeOne rule l4t exts = true ↔
      ((∃ pm ∈ rule.L4Type, pm.baseProtocol = l4t) ∧
        (∃ pm ∈ rule.L4Type, pm.extension = -1 ∨
          ∃ e ∈ exts, (pm.extension % 256).toNat = e.Typ ∧ pm.baseProtocol = e.Class)) := by
  simp only [matchL4TypeOne, matchRuleL4ExtensionType, List.any_eq_true, Bool.and_eq_true,
    Bool.or_eq_true, beq_iff_eq]
  constructor
  · rintro ⟨pm, hpm, hbp, hext⟩
    exact ⟨⟨pm, hpm, hbp⟩, hext⟩
  · rintro ⟨⟨pm, hpm, hbp⟩, hext⟩
    exact ⟨pm, hpm, hbp, hext⟩

/-- C4 counterexample: with eleven identical references in the first source
and destination buckets there are eleven matching pairs, so the write into
the fixed 10-slot `matches` buffer goes out of range (a Go panic, modelled as
`none`), refuting "for inputs of any size, with no out-of-bounds access". -/
theorem c4_counterexample : intersectListsRules bucketsEleven bucketsEleven = none := by
  decide

/-- C4 (amended): whenever the number of matching (source entry, destination
entry) pairs is at most 10, `intersectListsRules` returns a buffer whose
non-nil entries are exactly the references present in at least one source
bucket and at least one destination bucket (by identity); with more than 10
matching pairs the write goes out of bounds. -/
theorem c4_intersect_members (a b : List (List RuleRef)) (res : List (Option RuleRef))
    (h : intersectListsRules a b = some res) (r : RuleRef) :
    some r ∈ res ↔ ((∃ la ∈ a, r ∈ la) ∧ (∃ lb ∈ b, r ∈ lb)) :=
  mem_intersect_res a b res h r

/-- C4 witness: a singleton intersection evaluated through the theorem. -/
theorem c4_witness :
    some 0 ∈ ([some 0] ++ List.replicate 9 none : List (Option RuleRef)) ↔
      ((∃ la ∈ bucketsOne, 0 ∈ la) ∧ (∃ lb ∈ bucketsOne, 0 ∈ lb)) :=
  c4_intersect_members bucketsOne bucketsOne ([some 0] ++ List.replicate 9 none) (by decide) 0

/-- C5 counterexample: at length = maxLength = 1 with an empty profile the
channel variant's `CheckAction` returns DROPNOTIFY while the ring-buffer
variant returns PASS — the ring-buffer variant has no capacity check, so the
two variants are not behaviourally interchangeable. -/
theorem c5_counterexample :
    ChannelCheckAction ⟨1, []⟩ 1 (fun _ => 0) = PoliceAction.DROPNOTIFY ∧
      PacketBufCheckAction ⟨1, []⟩ 1 (fun _ => 0) = PoliceAction.PASS :=
  ⟨rfl, rfl⟩

/-- C5 (amended): only the channel variant returns DROPNOTIFY when
length ≥ maxLength before consulting the fill profile; the ring-buffer
variant scans the profile directly.  Below capacity the two `CheckAction`
implementations agree for every queue configuration, length and random
sample stream. -/
theorem c5_checkaction_agree_below_capacity (pq : PacketQueue) (length : Nat)
    (rand : Nat → Nat) (h : length < pq.MaxLength) :
    ChannelCheckAction pq length rand = PacketBufCheckAction pq length rand := by
  unfold ChannelCheckAction PacketBufCheckAction
  rw [if_neg (not_le.mpr h)]

/-- C5 witness: the two variants agree at length 1 of a capacity-2 queue. -/
theorem c5_witness :
    ChannelCheckAction ⟨2, []⟩ 1 (fun _ => 0) = PacketBufCheckAction ⟨2, []⟩ 1 (fun _ => 0) :=
  c5_checkaction_agree_below_capacity ⟨2, []⟩ 1 (fun _ => 0) (by decide)

/-- C8: for the channel queue, in every state reachable with enqueues guarded
by a PASS admission decision (and arbitrary pops), the length stays between 0
and the reported capacity `GetCapacity = MaxLength`: a PASS from
`CheckAction` implies length < MaxLength, since at or above MaxLength it
returns DROPNOTIFY before the profile scan. -/
theorem c8_queue_length_invariant (pq : PacketQueue) (s : List Nat)
    (h : ChanReachable pq s) : 0 ≤ s.length ∧ s.length ≤ GetCapacity pq := by
  refine ⟨Nat.zero_le _, ?_⟩
  induction h with
  | init => exact Nat.zero_le _
  | enq s p rand hs hpass ih =>
      have hlt : s.length < pq.MaxLength := by
        by_contra hge
        push_neg at hge
        unfold ChannelCheckAction at hpass
        rw [if_pos hge] at hpass
        exact absurd hpass (by decide)
      have : (s ++ [p]).length = s.length + 1 := by simp
      rw [this]
      exact Nat.succ_le_of_lt hlt
  | pop s hs ih =>
      have : s.tail.length ≤ s.length := by
        rw [List.length_tail]
        exact Nat.sub_le _ _
      exact le_trans this ih

/-- C8 witness: the empty queue of a capacity-5 configuration. -/
theorem c8_witness :
    0 ≤ ([] : List Nat).length ∧ ([] : List Nat).length ≤ GetCapacity ⟨5, []⟩ :=
  c8_queue_length_invariant ⟨5, []⟩ [] ChanReachable.init

/-- C2 counterexample, part one: with rules [priority-99 any/any with empty
L4 list, priority-5 any/any matching protocol 6] and a protocol-6 packet, the
claim's union of L4 survivors over the five candidate groups is exactly the
second rule — yet classification returns the default (`some none`): the scan
of `getRuleWithPrevMax` breaks at the first non-surviving entry and never
reaches the survivor.  Part two: for a single Exact-Exact rule that matches
the packet, the scan of the 10-slot matched buffer walks past the end of the
one-slot scratch mask — a Go runtime panic, so classification returns nothing
at all, against both the greatest-priority clause and the never-null clause. -/
theorem c2_counterexample :
    (l4SurvivorsSpec (RulesToMap crsC2) [] pktNoExt (List.replicate 10 none) = [1] ∧
      intersectListsRules (sourcesOf (RulesToMap crsC2) pktNoExt)
        (destinationsOf (RulesToMap crsC2) pktNoExt) = some (List.replicate 10 none) ∧
      (deref crsC2 1).Priority = 5 ∧
      (CachelessGetRuleForPacket (RulesToMap crsC2) 2 [] pktNoExt).map Prod.fst =
        some none) ∧
      (matchL4TypeOne ruleExactExact pktNoExt.l4Type [] = true ∧
        CachelessGetRuleForPacket (RulesToMap [ruleExactExact]) 1 [] pktNoExt = none) := by
  refine ⟨⟨by decide, by decide, by decide, by decide⟩, by decide, by decide⟩

/-- C2 (amended): WHEN classification completes — the Go code can instead
panic at runtime: the 10-slot matched buffer outgrows the `Init`-allocated
scratch masks (`noRules < 10` with a long-enough surviving prefix), or the
intersect buffer overflows — the returned rule is the maximum-priority rule
among the SCANNED survivors: each of the five candidate lists contributes
only the prefix before its first non-surviving entry, the running maximum
starts at -1, and if no scanned survivor has priority above -1 the default
rule is returned. -/
theorem c2_classify_scanned_max (config : MapRules) (noRules : Nat)
    (extensions : List ExtnType) (pkt : RtrPkt) (matched : List (Option RuleRef))
    (res : Option RuleRef)
    (hI : intersectListsRules (sourcesOf config pkt) (destinationsOf config pkt) =
      some matched)
    (h : classifyCore config noRules extensions pkt = some res) :
    (maxAcc config.RulesList (-1)
        (scannedSurvivors config noRules extensions pkt matched) = -1 → res = none) ∧
      (-1 < maxAcc config.RulesList (-1)
          (scannedSurvivors config noRules extensions pkt matched) →
        ∃ r, r ∈ scannedSurvivors config noRules extensions pkt matched ∧ res = some r ∧
          (deref config.RulesList r).Priority =
            maxAcc config.RulesList (-1)
              (scannedSurvivors config noRules extensions pkt matched)) := by
  obtain ⟨matched', hI', hM⟩ := classifyCore_spec config noRules extensions pkt res h
  rw [hI] at hI'
  obtain rfl : matched = matched' := Option.some_inj.mp hI'
  obtain ⟨h1, h2⟩ := hM
  constructor
  · intro hmax
    cases h2 with
    | inl hh => exact hh.1
    | inr hh =>
        obtain ⟨r, _, _, _, hlt⟩ := hh
        have hlt' : (-1 : Int) < maxAcc config.RulesList (-1)
            (scannedSurvivors config noRules extensions pkt matched) := hlt
        rw [hmax] at hlt'
        exact absurd hlt' (by omega)
  · intro hmax
    cases h2 with
    | inl hh =>
        have hh2 : maxAcc config.RulesList (-1)
            (scannedSurvivors config noRules extensions pkt matched) = -1 := hh.2
        rw [hh2] at hmax
        exact absurd hmax (by omega)
    | inr hh =>
        obtain ⟨r, hrmem, hreq, hrpri, _⟩ := hh
        exact ⟨r, hrmem, hreq, hrpri⟩

/-- C2 witness: the theorem applied at the two-rule configuration (scratch
masks of length 2) and a protocol-6 packet, where the scan selects rule 0. -/
theorem c2_witness :
    (maxAcc (RulesToMap crsC3).RulesList (-1)
        (scannedSurvivors (RulesToMap crsC3) 2 [] pktNoExt (List.replicate 10 none)) =
          -1 → (some 0 : Option RuleRef) = none) ∧
      (-1 < maxAcc (RulesToMap crsC3).RulesList (-1)
          (scannedSurvivors (RulesToMap crsC3) 2 [] pktNoExt (List.replicate 10 none)) →
        ∃ r, r ∈ scannedSurvivors (RulesToMap crsC3) 2 [] pktNoExt
            (List.replicate 10 none) ∧ (some 0 : Option RuleRef) = some r ∧
          (deref (RulesToMap crsC3).RulesList r).Priority =
            maxAcc (RulesToMap crsC3).RulesList (-1)
              (scannedSurvivors (RulesToMap crsC3) 2 [] pktNoExt
                (List.replicate 10 none))) :=
  c2_classify_scanned_max (RulesToMap crsC3) 2 [] pktNoExt (List.replicate 10 none)
    (some 0) (by decide) (by decide)

/-- C9: classification (with a cache whose stored values are themselves
default-or-nonnegative, as every value stored by `Put` is) returns either the
default rule or a rule of priority strictly above -1: the running maximum of
`getRuleWithPrevMax` starts at -1 and a rule is selected only when its
priority strictly exceeds it, so a negative-priority rule is never returned
even when it is the only match. -/
theorem c9_no_negative_priority (config : MapRules) (noRules : Nat) (cache : Cache)
    (st : List ExtnType) (pkt : RtrPkt) (res : Option RuleRef)
    (hcache : ∀ e r, cache e = some r → r = none ∨
      -1 < (derefOpt config.RulesList r).Priority)
    (h : (RegularGetRuleForPacket config noRules cache st pkt).map Prod.fst = some res) :
    res = none ∨ -1 < (derefOpt config.RulesList res).Priority := by
  cases hc : cache (entryOf pkt) with
  | some r =>
      simp only [RegularGetRuleForPacket, hc] at h
      by_cases hm : matchRuleL4ExtensionType (derefOpt config.RulesList r)
          (st ++ pkt.hbhExt ++ pkt.e2eExt) = true
      · rw [if_pos hm] at h
        simp only [Option.map_some', Option.some_inj] at h
        obtain rfl : res = r := h.symm
        exact hcache _ res hc
      · rw [if_neg hm] at h
        exact fullpath_no_negative config noRules cache st pkt res h
  | none =>
      simp only [RegularGetRuleForPacket, hc] at h
      exact fullpath_no_negative config noRules cache st pkt res h

/-- C9 witness: the empty cache trivially satisfies the cache hypothesis and
the two-rule configuration returns the default for a protocol-0 packet. -/
theorem c9_witness :
    (none : Option RuleRef) = none ∨
      -1 < (derefOpt (RulesToMap crsC2).RulesList none).Priority :=
  c9_no_negative_priority (RulesToMap crsC2) 2 cacheEmpty [] pktZero none
    (fun _ r hr => nomatch hr) (by decide)

/-- C3 counterexample: rules A (priority 1, any extension) and B (priority
10, requires extension class 6 type 5).  Classifying the no-extension packet
from the empty cache stores A under the key; re-classifying the SAME key with
the extension present hits the cache, A passes the wildcard re-check and is
returned — but a full classification of that packet returns B.  The cache
hit that passes the re-check is therefore not what full classification would
return. -/
theorem c3_counterexample :
    (RegularGetRuleForPacket (RulesToMap crsC3) 2 cacheEmpty InitExtensions pktNoExt).map
        Prod.fst = some (some 0) ∧
      (RegularGetRuleForPacket (RulesToMap crsC3) 2 cacheC3 InitExtensions pktWithExt).map
        Prod.fst = some (some 0) ∧
      (CachelessGetRuleForPacket (RulesToMap crsC3) 2 InitExtensions pktWithExt).map
        Prod.fst = some (some 1) ∧
      (some 0 : Option RuleRef) ≠ some 1 := by
  refine ⟨by decide, by decide, by decide, by decide⟩

/-- C3 (amended): a cache hit that passes the extension re-check returns the
cached rule pointer itself, with no cache write and the scratch extensions
extended by the packet's; it need not coincide with full classification when
the packet's extensions newly satisfy a higher-priority rule. -/
theorem c3_cache_hit_returns_cached (config : MapRules) (noRules : Nat) (cache : Cache)
    (st : List ExtnType) (pkt : RtrPkt) (r : Option RuleRef)
    (hhit : cache (entryOf pkt) = some r)
    (hre : matchRuleL4ExtensionType (derefOpt config.RulesList r)
      (st ++ pkt.hbhExt ++ pkt.e2eExt) = true) :
    RegularGetRuleForPacket config noRules cache st pkt =
      some (r, cache, st ++ pkt.hbhExt ++ pkt.e2eExt) := by
  simp only [RegularGetRuleForPacket, hhit]
  rw [if_pos hre]

/-- C3 witness: the concrete cache hit of the counterexample scenario,
evaluated through the theorem. -/
theorem c3_witness :
    cacheC3 (entryOf pktWithExt) = some (some 0) ∧
      RegularGetRuleForPacket (RulesToMap crsC3) 2 cacheC3 InitExtensions pktWithExt =
        some (some 0, cacheC3, InitExtensions ++ pktWithExt.hbhExt ++ pktWithExt.e2eExt) :=
  ⟨by decide, c3_cache_hit_returns_cached (RulesToMap crsC3) 2 cacheC3 InitExtensions
    pktWithExt (some 0) (by decide) (by decide)⟩

/-- C7 counterexample: converting an external rule whose source side is
`INTF` (mode 5) with the malformed interface field "abc" (not a base-0
integer, so `strconv.ParseInt` fails) SUCCEEDS, silently producing an
internal rule with interface 0: the Go code discards the parse error with
`intf, _ := strconv.ParseInt(...)`. -/
theorem c7_counterexample :
    ConvClassRuleToInternal pIAconst pIntNone crBadIntf =
      Except.ok ⟨"intfrule", 0, ⟨zeroIA, zeroIA, zeroIA, 0, matchMode.INTF⟩,
        ⟨zeroIA, zeroIA, zeroIA, 0, matchMode.ANY⟩, [], 0⟩ := by
  rfl

/-- C7 (amended): for modes 0, 1, 2, 4 an identifier the parser rejects
yields a structured error; for mode 3 a field that does not split into two
parts around the double bar separator yields a structured error; an unknown
mode code yields a structured error; conversion propagates these errors — but
for mode 5 (`INTF`) the branch never fails: the integer parse error is
discarded and the rule is produced with the parsed-or-zero interface. -/
theorem c7_conversion_error_behaviour :
    (∀ (pIA : String → Option IA) (pInt : String → Option Int) (mm : Int) (field : String),
        (mm = 0 ∨ mm = 1 ∨ mm = 2 ∨ mm = 4) → pIA field = none →
        getMatchRuleTypeFromRule pIA pInt mm field =
          Except.error (ConvError.addrParse field)) ∧
      (∀ (pIA : String → Option IA) (pInt : String → Option Int) (field : String),
        (field.splitOn "||").length ≠ 2 →
        getMatchRuleTypeFromRule pIA pInt 3 field =
          Except.error (ConvError.invalidClass 3)) ∧
      (∀ (pIA : String → Option IA) (pInt : String → Option Int) (mm : Int) (field : String),
        ¬(mm = 0 ∨ mm = 1 ∨ mm = 2 ∨ mm = 3 ∨ mm = 4 ∨ mm = 5) →
        getMatchRuleTypeFromRule pIA pInt mm field =
          Except.error (ConvError.invalidMatchMode mm)) ∧
      (∀ (pIA : String → Option IA) (pInt : String → Option Int) (field : String),
        getMatchRuleTypeFromRule pIA pInt 5 field =
          Except.ok ⟨zeroIA, zeroIA, zeroIA, (((pInt field).getD 0) % (2 ^ 64)).toNat,
            matchMode.INTF⟩) ∧
      (∀ (pIA : String → Option IA) (pInt : String → Option Int) (cr : ExternalClassRule)
        (e : ConvError),
        getMatchRuleTypeFromRule pIA pInt cr.SourceMatchMode cr.SourceAs = Except.error e →
        ConvClassRuleToInternal pIA pInt cr = Except.error e) := by
  refine ⟨?_, ?_, ?_, ?_, ?_⟩
  · intro pIA pInt mm field hmm hia
    unfold getMatchRuleTypeFromRule
    rw [if_pos hmm, hia]
  · intro pIA pInt field hsplit
    unfold getMatchRuleTypeFromRule
    rw [if_neg (by decide), if_pos rfl]
    cases hsp : field.splitOn "||" with
    | nil => rfl
    | cons a t =>
        cases t with
        | nil => rfl
        | cons b t2 =>
            cases t2 with
            | nil => rw [hsp] at hsplit; exact absurd rfl hsplit
            | cons c t3 => rfl
  · intro pIA pInt mm field hmm
    push_neg at hmm
    obtain ⟨h0, h1, h2, h3, h4, h5⟩ := hmm
    unfold getMatchRuleTypeFromRule
    rw [if_neg (by tauto), if_neg h3, if_neg h5]
  · intro pIA pInt field
    unfold getMatchRuleTypeFromRule
    rw [if_neg (by decide), if_neg (by decide), if_pos rfl]
  · intro pIA pInt cr e h
    unfold ConvClassRuleToInternal
    rw [h]

/-- C7 witness: mode 0 with an always-failing identifier parser errors. -/
theorem c7_witness :
    getMatchRuleTypeFromRule pIAnone pIntNone 0 "x" =
      Except.error (ConvError.addrParse "x") :=
  c7_conversion_error_behaviour.1 pIAnone pIntNone 0 "x" (Or.inl rfl) rfl

/-- C10: the scratch extension slice starts as 255 zero entries, is appended
to by every classification (cacheless and cached alike) and never cleared, so
after classifying packets with extension lists E1..En it equals the 255 zeros
followed by E1 ++ ... ++ En; consequently a later packet's classification can
depend on an earlier packet's extensions: against the single
extension-constrained rule, the no-extension packet classifies to the default
from a fresh state but to the rule after a packet carrying (class 6, type 5)
was classified first. -/
theorem c10_extensions_accumulate :
    (∀ (config : MapRules) (noRules : Nat) (pkts : List RtrPkt) (st' : List ExtnType),
        runCacheless config noRules InitExtensions pkts = some st' →
        st' = InitExtensions ++ (pkts.map pktExtList).flatten) ∧
      (∀ (config : MapRules) (noRules : Nat) (cache : Cache) (st : List ExtnType)
        (pkt : RtrPkt) (out : Option RuleRef × Cache × List ExtnType),
        RegularGetRuleForPacket config noRules cache st pkt = some out →
        out.2.2 = st ++ pkt.hbhExt ++ pkt.e2eExt) ∧
      ((CachelessGetRuleForPacket (RulesToMap crsC10) 1 InitExtensions pktNoExt).map
        Prod.fst = some none) ∧
      ((CachelessGetRuleForPacket (RulesToMap crsC10) 1 InitExtensions pktWithExt).map
        (fun t => t.2) = some (InitExtensions ++ [⟨6, 5⟩])) ∧
      ((CachelessGetRuleForPacket (RulesToMap crsC10) 1 (InitExtensions ++ [⟨6, 5⟩])
        pktNoExt).map Prod.fst = some (some 0)) := by
  refine ⟨?_, ?_, by decide, by decide, by decide⟩
  · intro config noRules pkts st' h
    exact runCacheless_extensions config noRules pkts InitExtensions st' h
  · intro config noRules cache st pkt out h
    exact regular_extensions_eq config noRules cache st pkt out h

/-- C10 witness: the empty packet sequence leaves the scratch state at its
initial 255 zeros. -/
theorem c10_witness :
    InitExtensions = InitExtensions ++ (([] : List RtrPkt).map pktExtList).flatten :=
  c10_extensions_accumulate.1 cfgEmpty 0 [] InitExtensions rfl

/-- C6 counterexample: for the rule (source ANY, destination Exact (2,2)) and
the packet src (1,1) → dst (2,2), the index holds the rule under key (2,2)
and nothing under (1,1); the code's classification finds the rule — because
it reads `DestinationAnySourceRules` indexed by the packet's DESTINATION
address — while the claim-indexed variant (reading it by the packet's source
address, as the claim states) returns the default. -/
theorem c6_counterexample :
    (RulesToMap [ruleC6fix]).DestinationAnySourceRules ⟨1, 1⟩ = [] ∧
      (RulesToMap [ruleC6fix]).DestinationAnySourceRules ⟨2, 2⟩ = [0] ∧
      (CachelessGetRuleForPacket (RulesToMap [ruleC6fix]) 1 [] pktNoExt).map Prod.fst =
        some (some 0) ∧
      classifyCoreClaimIndexed (RulesToMap [ruleC6fix]) 1 [] pktNoExt = some none := by
  refine ⟨by decide, by decide, by decide, by decide⟩

/-- C6 (amended): a rule with source mode ANY and destination mode not ANY is
indexed in `destinationAnySourceRules` under its destination identifier, and
classification reads that group indexed by the packet's DESTINATION address
(so, for a singleton rule set with an Exact destination and any positive
scratch-mask size, any packet whose destination equals the rule's destination
identifier and whose l4/extension match succeeds is classified to that rule,
whatever its source). -/
theorem c6_dstany_index_and_lookup :
    (∀ (crs : List InternalClassRule) (k : Nat) (cr : InternalClassRule),
        crs[k]? = some cr → cr.SourceAs.matchMode = matchMode.ANY →
        cr.DestinationAs.matchMode ≠ matchMode.ANY →
        k ∈ (RulesToMap crs).DestinationAnySourceRules cr.DestinationAs.IA) ∧
      (∀ (cr : InternalClassRule) (noRules : Nat) (st : List ExtnType) (pkt : RtrPkt),
        1 ≤ noRules →
        cr.SourceAs.matchMode = matchMode.ANY →
        cr.DestinationAs.matchMode = matchMode.EXACT →
        pkt.dstIA = cr.DestinationAs.IA → 0 ≤ cr.Priority →
        matchL4TypeOne cr pkt.l4Type (st ++ pkt.hbhExt ++ pkt.e2eExt) = true →
        (CachelessGetRuleForPacket (RulesToMap [cr]) noRules st pkt).map Prod.fst =
          some (some 0)) := by
  constructor
  · intro crs k cr hget hs hd
    have hmem : (k, cr) ∈ crs.enum := List.mk_mem_enum_iff_getElem?.mpr hget
    show k ∈ (crs.enum.foldl (fun mp p =>
      rulesToMapStep mp p.1 p.2) (emptyMapRules crs)).DestinationAnySourceRules
      cr.DestinationAs.IA
    exact das_fold_mem crs.enum (emptyMapRules crs) k cr hmem hs hd
  · intro cr noRules st pkt hnr hs hd hdst hpri hmatch
    obtain ⟨n', rfl⟩ : ∃ n', noRules = n' + 1 :=
      ⟨noRules - 1, (Nat.succ_pred_eq_of_pos hnr).symm⟩
    have hRL : (RulesToMap [cr]).RulesList = [cr] := by
      show (rulesToMapStep (emptyMapRules [cr]) 0 cr).RulesList = [cr]
      simp only [rulesToMapStep, hs, hd, ne_eq, reduceCtorEq, not_false_eq_true, if_true,
        reduceIte, emptyMapRules]
    have hSrc : (RulesToMap [cr]).SourceRules = emptyTable := by
      show (rulesToMapStep (emptyMapRules [cr]) 0 cr).SourceRules = emptyTable
      simp only [rulesToMapStep, hs, hd, ne_eq, reduceCtorEq, not_false_eq_true, if_true,
        reduceIte, emptyMapRules]
    have hAso : (RulesToMap [cr]).ASOnlySourceRules = emptyTable := by
      show (rulesToMapStep (emptyMapRules [cr]) 0 cr).ASOnlySourceRules = emptyTable
      simp only [rulesToMapStep, hs, hd, ne_eq, reduceCtorEq, not_false_eq_true, if_true,
        reduceIte, emptyMapRules]
    have hIso : (RulesToMap [cr]).ISDOnlySourceRules = emptyTable := by
      show (rulesToMapStep (emptyMapRules [cr]) 0 cr).ISDOnlySourceRules = emptyTable
      simp only [rulesToMapStep, hs, hd, ne_eq, reduceCtorEq, not_false_eq_true, if_true,
        reduceIte, emptyMapRules]
    have hSad : (RulesToMap [cr]).SourceAnyDestinationRules = emptyTable := by
      show (rulesToMapStep (emptyMapRules [cr]) 0 cr).SourceAnyDestinationRules = emptyTable
      simp only [rulesToMapStep, hs, hd, ne_eq, reduceCtorEq, not_false_eq_true, if_true,
        reduceIte, emptyMapRules]
    have hIntf : (RulesToMap [cr]).InterfaceIncomingRules = emptyTable := by
      show (rulesToMapStep (emptyMapRules [cr]) 0 cr).InterfaceIncomingRules = emptyTable
      simp only [rulesToMapStep, hs, hd, ne_eq, reduceCtorEq, not_false_eq_true, if_true,
        reduceIte, emptyMapRules]
    have hL4o : (RulesToMap [cr]).L4OnlyRules = [] := by
      show (rulesToMapStep (emptyMapRules [cr]) 0 cr).L4OnlyRules = []
      simp only [rulesToMapStep, hs, hd, ne_eq, reduceCtorEq, not_false_eq_true, if_true,
        reduceIte, emptyMapRules]
    have hDas : (RulesToMap [cr]).DestinationAnySourceRules pkt.dstIA = [0] := by
      show (rulesToMapStep (emptyMapRules [cr]) 0 cr).DestinationAnySourceRules pkt.dstIA = [0]
      simp only [rulesToMapStep, hs, hd, ne_eq, reduceCtorEq, not_false_eq_true, if_true,
        reduceIte, emptyMapRules, emptyTable, mapAdd, hdst, if_pos rfl]
      simp
    have hsources : sourcesOf (RulesToMap [cr]) pkt = [[], [], []] := by
      simp [sourcesOf, hSrc, hAso, hIso, emptyTable]
    have hpairs : intersectPairs [[], [], []] (destinationsOf (RulesToMap [cr]) pkt) = [] := by
      simp [intersectPairs]
    have hI : intersectListsRules (sourcesOf (RulesToMap [cr]) pkt)
        (destinationsOf (RulesToMap [cr]) pkt) = some (List.replicate 10 none) := by
      rw [hsources]
      simp [intersectListsRules, hpairs]
    have hderef : deref [cr] 0 = cr := rfl
    have hprio2 : (-1 : Int) < cr.Priority := by omega
    have hmaskM : matchL4Type [cr] (n' + 1) (List.replicate 10 none) pkt.l4Type
        (st ++ pkt.hbhExt ++ pkt.e2eExt) = some (List.replicate (n' + 1) false) := rfl
    have hmaskNil : matchL4Type [cr] (n' + 1) ([] : List (Option RuleRef)) pkt.l4Type
        (st ++ pkt.hbhExt ++ pkt.e2eExt) = some (List.replicate (n' + 1) false) := rfl
    have hmaskDas : matchL4Type [cr] (n' + 1) [some 0] pkt.l4Type
        (st ++ pkt.hbhExt ++ pkt.e2eExt) = some (true :: List.replicate n' false) := by
      simp only [matchL4Type, matchL4TypeGo, hderef, hmatch, if_true, Option.map_some']
    have hgM : getRuleWithPrevMax [cr] none (List.replicate (n' + 1) false)
        (List.replicate 10 none) (-1) = some (-1, none) := rfl
    have hgNil : ∀ (r0 : Option RuleRef) (m : Int), getRuleWithPrevMax [cr] r0
        (List.replicate (n' + 1) false) ([] : List (Option RuleRef)) m = some (m, r0) :=
      fun _ _ => rfl
    have hgDas : getRuleWithPrevMax [cr] none (true :: List.replicate n' false) [some 0]
        (-1) = some (cr.Priority, some 0) := by
      have hred : getRuleWithPrevMax [cr] none (true :: List.replicate n' false)
          [some 0] (-1) =
          if (-1 : Int) < (deref [cr] 0).Priority then
            getRuleWithPrevMax [cr] (some 0) (List.replicate n' false) []
              (deref [cr] 0).Priority
          else getRuleWithPrevMax [cr] none (List.replicate n' false) [] (-1) := rfl
      rw [hred, hderef, if_pos hprio2]
      exact getRule_nil_list [cr] (some 0) (List.replicate n' false) cr.Priority
    simp only [CachelessGetRuleForPacket, classifyCore, sadOf, dasOf, intfOf, hRL, hSad,
      hDas, hIntf, hL4o, emptyTable, List.map_nil, List.map_cons, hI, hmaskM, hmaskNil,
      hmaskDas, hgM, hgNil, hgDas, Option.some_bind, Option.map_some']

/-- C6 witness: both parts applied to the concrete source-ANY rule with Exact
destination (2,2) and the packet src (1,1) → dst (2,2), scratch-mask size 1. -/
theorem c6_witness :
    0 ∈ (RulesToMap [ruleC6fix]).DestinationAnySourceRules ruleC6fix.DestinationAs.IA ∧
      (CachelessGetRuleForPacket (RulesToMap [ruleC6fix]) 1 [] pktNoExt).map Prod.fst =
        some (some 0) :=
  ⟨c6_dstany_index_and_lookup.1 [ruleC6fix] 0 ruleC6fix rfl rfl (by decide),
    c6_dstany_index_and_lookup.2 ruleC6fix 1 [] pktNoExt (by decide) rfl rfl rfl
      (by decide) (by decide)⟩
